import Mathlib

/-!
Shallow embedding of the InsightForge BI assistant core (src/app.py):
the statistics knowledge-base builder `load_and_process_data` and the
keyword-driven context retriever `custom_retriever`.

Modelling conventions:
* Python floats are modelled as `ℚ` (exact arithmetic); float formatting
  (`:,.2f` etc.) is modelled by exact half-even rounding on `ℚ`.
* The pandas pipeline is modelled at the parsed-row level: a `RawRecord`
  is one CSV row after column extraction; `pd.to_datetime` is modelled by
  `parseDate` on ISO `YYYY-MM-DD` strings, failing like the source does
  (the surrounding `except` block turns any parse failure into a hard
  abort via `st.stop()`, modelled as `Except.error`).
* `df.groupby(k)[c].sum()` sorts group keys ascending (pandas default
  `sort=True`) and `.idxmax()` returns the first index attaining the
  maximum; both are modelled explicitly below.
* The `median_sales` scalar is included; `std_dev` involves a real
  square root (irrational), is used by no claim, and is omitted from the
  embedded `Stats` record.
-/

/-- One parsed calendar date (pandas `Timestamp`, day precision). -/
structure CalDate where
  year : Nat
  month : Nat
  day : Nat
deriving DecidableEq, Repr

/-- One CSV row of `sales_data.csv` after column extraction, before date
parsing: columns `Date, Product, Region, Sales, Customer_Age,
Customer_Satisfaction`. -/
structure RawRecord where
  date : String
  product : String
  region : String
  sales : ℚ
  customer_age : ℚ
  customer_satisfaction : ℚ
deriving DecidableEq, Repr

/-- One transaction record after `pd.to_datetime` has parsed the date. -/
structure Record where
  date : CalDate
  product : String
  region : String
  sales : ℚ
  customer_age : ℚ
  customer_satisfaction : ℚ
deriving DecidableEq, Repr

/-- Whether year `y` is a leap year (Gregorian rule). -/
def isLeapYear (y : Nat) : Bool :=
  y % 4 = 0 && (y % 100 ≠ 0 || y % 400 = 0)

/-- Number of days in month `m` of year `y`. -/
def daysInMonth (y m : Nat) : Nat :=
  if m = 2 then (if isLeapYear y then 29 else 28)
  else if m = 4 || m = 6 || m = 9 || m = 11 then 30
  else 31

/-- Split a character list at each dash (Python `split('-')`). -/
def splitDash : List Char → List (List Char)
  | [] => [[]]
  | c :: cs =>
    if c = '-' then [] :: splitDash cs
    else
      match splitDash cs with
      | [] => [[c]]
      | seg :: rest => (c :: seg) :: rest

/-- Accumulate the decimal value of a digit run, failing on any
non-digit. -/
def decDigitsAux : List Char → Nat → Option Nat
  | [], acc => some acc
  | c :: cs, acc =>
    if c.isDigit then decDigitsAux cs (acc * 10 + (c.toNat - 48)) else none

/-- Decimal value of a non-empty all-digit character run. -/
def decDigits? : List Char → Option Nat
  | [] => none
  | c :: cs => decDigitsAux (c :: cs) 0

/-- Model of the `pd.to_datetime` parsing boundary on ISO `YYYY-MM-DD`
strings: three dash-separated decimal fields with a valid calendar
month/day; anything else fails to parse. -/
def parseDate (s : String) : Option CalDate :=
  match (splitDash s.toList).map decDigits? with
  | [some y, some m, some d] =>
    if 1 ≤ m && m ≤ 12 && 1 ≤ d && d ≤ daysInMonth y m then
      some ⟨y, m, d⟩
    else none
  | _ => none

/-- Parse one raw row into a `Record` (only the date needs parsing). -/
def toRecord (r : RawRecord) : Option Record :=
  (parseDate r.date).map fun d =>
    ⟨d, r.product, r.region, r.sales, r.customer_age, r.customer_satisfaction⟩

/-- Builder failures: the source's two data-dependent abort paths
(`st.stop()` after the generic `except`), named as in the spec.
`malformedRecordError i` records the index of the offending row. -/
inductive BuildError where
  | emptyDatasetError : BuildError
  | malformedRecordError : Nat → BuildError
deriving DecidableEq, Repr

/-- Parse all rows in order, aborting at the first row whose date does
not parse (index counted from `i`). -/
def parseRecordsFrom (i : Nat) : List RawRecord → Except BuildError (List Record)
  | [] => Except.ok []
  | r :: rest =>
    match toRecord r with
    | none => Except.error (BuildError.malformedRecordError i)
    | some rec =>
      match parseRecordsFrom (i + 1) rest with
      | Except.error e => Except.error e
      | Except.ok rs => Except.ok (rec :: rs)

/-- Parse all rows, aborting at the first malformed one. -/
def parseRecords (rows : List RawRecord) : Except BuildError (List Record) :=
  parseRecordsFrom 0 rows

/-- Sum of `Sales` over all records: `float(df['Sales'].sum())`. -/
def total_revenue (rs : List Record) : ℚ :=
  (rs.map Record.sales).sum

/-- Mean of `Sales`: `float(df['Sales'].mean())`. -/
def average_transaction (rs : List Record) : ℚ :=
  total_revenue rs / (rs.length : ℚ)

/-- Median of `Sales`: `float(df['Sales'].median())` (midpoint of the two
central values for even length). -/
def median_sales (rs : List Record) : ℚ :=
  let sorted := List.insertionSort (· ≤ ·) (rs.map Record.sales)
  let n := sorted.length
  if n % 2 = 1 then sorted.getD (n / 2) 0
  else (sorted.getD (n / 2 - 1) 0 + sorted.getD (n / 2) 0) / 2

/-- Summed `Sales` of the records whose `Product` label is exactly `p`
(pandas grouping is by exact label equality). -/
def productSumFor (rs : List Record) (p : String) : ℚ :=
  ((rs.filter fun r => r.product = p).map Record.sales).sum

/-- The distinct `Product` labels, ascending — pandas `groupby('Product')`
sorts group keys ascending by default. -/
def productKeys (rs : List Record) : List String :=
  List.insertionSort (· ≤ ·) ((rs.map Record.product).dedup)

/-- `df.groupby('Product')['Sales'].sum().to_dict()`: keys ascending
(insertion order of the Python dict), value = summed sales. -/
def sales_by_product (rs : List Record) : List (String × ℚ) :=
  (productKeys rs).map fun p => (p, productSumFor rs p)

/-- Summed `Sales` of the records whose `Region` label is exactly `g`. -/
def regionSumFor (rs : List Record) (g : String) : ℚ :=
  ((rs.filter fun r => r.region = g).map Record.sales).sum

/-- The distinct `Region` labels, ascending. -/
def regionKeys (rs : List Record) : List String :=
  List.insertionSort (· ≤ ·) ((rs.map Record.region).dedup)

/-- `df.groupby('Region')['Sales'].sum().to_dict()`. -/
def sales_by_region (rs : List Record) : List (String × ℚ) :=
  (regionKeys rs).map fun g => (g, regionSumFor rs g)

/-- Pandas `Series.idxmax` scan: keep the current best unless a later
value is strictly greater, so the FIRST index attaining the maximum
wins. -/
def idxmaxAux (best : String × ℚ) : List (String × ℚ) → String × ℚ
  | [] => best
  | x :: xs => idxmaxAux (if best.2 < x.2 then x else best) xs

/-- `df.groupby('Product')['Sales'].sum().idxmax()`: the first key of the
ascending-sorted product series attaining the maximal summed sales.
(On an empty series pandas raises; the builder errors out before this
can be reached, so the `[]` branch is unreachable from `mkStats`.) -/
def best_selling_product (rs : List Record) : String :=
  match sales_by_product rs with
  | [] => ""
  | x :: xs => (idxmaxAux x xs).1

/-- Encode the year-month period of a date (`df['Date'].dt.to_period('M')`)
as `year * 100 + month`; since `1 ≤ month ≤ 12`, the numeric order of
codes is exactly chronological order of periods. -/
def ymCode (d : CalDate) : Nat :=
  d.year * 100 + d.month

/-- The distinct year-month periods present, chronologically ascending
(pandas groups by `Period('M')` and sorts keys). -/
def monthCodes (rs : List Record) : List Nat :=
  List.insertionSort (· ≤ ·) ((rs.map fun r => ymCode r.date).dedup)

/-- Summed `Sales` of the records falling in period `c`. -/
def monthSumFor (rs : List Record) (c : Nat) : ℚ :=
  ((rs.filter fun r => ymCode r.date = c).map Record.sales).sum

/-- Python `int(v)` on a float: truncation toward zero. -/
def qtrunc (q : ℚ) : ℤ :=
  if 0 ≤ q then ⌊q⌋ else ⌈q⌉

/-- Decimal digit character. -/
def digitChar (n : Nat) : Char :=
  Char.ofNat (48 + n)

/-- Plain decimal rendering of a natural number. -/
def natStr (n : Nat) : String :=
  String.mk (Nat.toDigits 10 n)

/-- Zero-pad the decimal rendering of `n` to width `w`. -/
def padNat (w n : Nat) : String :=
  let s := natStr n
  String.mk (List.replicate (w - s.length) '0') ++ s

/-- `str(Period('M'))`: `YYYY-MM` with zero padding. -/
def periodStr (c : Nat) : String :=
  padNat 4 (c / 100) ++ "-" ++ padNat 2 (c % 100)

/-- `{str(k): int(v) for k, v in df.groupby(df['Date'].dt.to_period('M'))['Sales'].sum().to_dict().items()}`:
chronologically ascending periods, each month's summed sales truncated
to an integer. -/
def monthly_trend (rs : List Record) : List (String × ℤ) :=
  (monthCodes rs).map fun c => (periodStr c, qtrunc (monthSumFor rs c))

/-- Mean of `Customer_Age`. -/
def avg_customer_age (rs : List Record) : ℚ :=
  (rs.map Record.customer_age).sum / (rs.length : ℚ)

/-- Mean of `Customer_Satisfaction`. -/
def avg_satisfaction (rs : List Record) : ℚ :=
  (rs.map Record.customer_satisfaction).sum / (rs.length : ℚ)

/-- The `stats` dictionary built by `load_and_process_data` (the
`StatsIndex` of the spec). `std_dev` is omitted: it is irrational in
general and no property here depends on it. -/
structure Stats where
  total_revenue : ℚ
  average_transaction : ℚ
  median_sales : ℚ
  best_selling_product : String
  sales_by_product : List (String × ℚ)
  sales_by_region : List (String × ℚ)
  monthly_trend : List (String × ℤ)
  avg_customer_age : ℚ
  avg_satisfaction : ℚ
deriving DecidableEq, Repr

/-- Assemble the `stats` dictionary from the parsed records. -/
def mkStats (rs : List Record) : Stats where
  total_revenue := total_revenue rs
  average_transaction := average_transaction rs
  median_sales := median_sales rs
  best_selling_product := best_selling_product rs
  sales_by_product := sales_by_product rs
  sales_by_region := sales_by_region rs
  monthly_trend := monthly_trend rs
  avg_customer_age := avg_customer_age rs
  avg_satisfaction := avg_satisfaction rs

/-- The knowledge-base builder (`load_and_process_data` at the parsed-row
boundary): parse every date, aborting on the first malformed row; on an
empty dataset the pandas `idxmax` raises and the surrounding handler
aborts, so no `Stats` value is produced. -/
def load_and_process_data (rows : List RawRecord) : Except BuildError Stats :=
  match parseRecords rows with
  | Except.error e => Except.error e
  | Except.ok [] => Except.error BuildError.emptyDatasetError
  | Except.ok (r :: rs) => Except.ok (mkStats (r :: rs))

/-! Formatting helpers: exact-`ℚ` models of the Python format specifiers
used by `custom_retriever` (`:,.2f`, `:.1f`, `:.2f`) and of `str()` on
floats, ints and dicts. -/

/-- Round to the nearest integer, ties to even — the rounding used by
Python's fixed-point float formatting. -/
def roundHalfEven (q : ℚ) : ℤ :=
  let f := ⌊q⌋
  let r := q - (f : ℚ)
  if r < 1 / 2 then f
  else if 1 / 2 < r then f + 1
  else if f % 2 = 0 then f else f + 1

/-- Insert a comma after every third digit; the input and output digit
lists are least-significant first. -/
def commaRev : List Char → Nat → List Char
  | [], _ => []
  | c :: cs, k =>
    if k % 3 = 2 && !cs.isEmpty then c :: ',' :: commaRev cs (k + 1)
    else c :: commaRev cs (k + 1)

/-- Decimal rendering of a natural number with thousands separators. -/
def natCommaStr (n : Nat) : String :=
  String.mk ((commaRev (Nat.toDigits 10 n).reverse 0).reverse)

/-- Python `format(x, ',.2f')`: two decimals, thousands separators. -/
def fmtComma2 (q : ℚ) : String :=
  let n := roundHalfEven (q * 100)
  (if q < 0 then "-" else "") ++ natCommaStr (n.natAbs / 100) ++ "." ++ padNat 2 (n.natAbs % 100)

/-- Python `format(x, '.1f')`: one decimal. -/
def fmt1 (q : ℚ) : String :=
  let n := roundHalfEven (q * 10)
  (if q < 0 then "-" else "") ++ natStr (n.natAbs / 10) ++ "." ++ natStr (n.natAbs % 10)

/-- Python `format(x, '.2f')`: two decimals, no separators. -/
def fmt2 (q : ℚ) : String :=
  let n := roundHalfEven (q * 100)
  (if q < 0 then "-" else "") ++ natStr (n.natAbs / 100) ++ "." ++ padNat 2 (n.natAbs % 100)

/-- Decimal fraction digits of `r / d`, most significant first, stopping
at remainder zero or when the fuel runs out (floats have finitely many
significant decimal digits). -/
def fracDigitsAux : Nat → Nat → Nat → List Char
  | 0, _, _ => []
  | _ + 1, 0, _ => []
  | fuel + 1, r, d => digitChar (r * 10 / d) :: fracDigitsAux fuel (r * 10 % d) d

/-- Python `str()` of a float value, modelled on `ℚ`: sign, integer part,
dot, fraction digits (at least one, `".0"` for integers). -/
def ratPyStr (q : ℚ) : String :=
  let ds := fracDigitsAux 17 (q.num.natAbs % q.den) q.den
  (if q < 0 then "-" else "") ++ natStr (q.num.natAbs / q.den) ++ "." ++
    (if ds.isEmpty then "0" else String.mk ds)

/-- Python `str()` of an int. -/
def intPyStr (i : ℤ) : String :=
  (if i < 0 then "-" else "") ++ natStr i.natAbs

/-- A single-quote character as a string. -/
def quoteStr : String :=
  String.singleton (Char.ofNat 39)

/-- Python `str()` of a dict entry: quoted key, colon, rendered value. -/
def pyPairStr (k v : String) : String :=
  quoteStr ++ k ++ quoteStr ++ ": " ++ v

/-- Python `sep.join(parts)`. -/
def joinSep (sep : String) : List String → String
  | [] => ""
  | [x] => x
  | x :: y :: xs => x ++ sep ++ joinSep sep (y :: xs)

/-- Python `str()` of a dict given pre-rendered values, preserving entry
order. -/
def pyDictStr (ps : List (String × String)) : String :=
  "\x7b" ++ joinSep ", " (ps.map fun p => pyPairStr p.1 p.2) ++ "\x7d"

/-! The context retriever (`custom_retriever` in src/app.py). -/

/-- Lowercasing used for keyword matching (`query.lower()`). -/
def strToLower (s : String) : String :=
  String.mk (s.toList.map Char.toLower)

/-- Whether pattern `p` occurs at the start of text `t`. -/
def prefixAt : List Char → List Char → Bool
  | [], _ => true
  | _ :: _, [] => false
  | a :: as, b :: bs => a = b && prefixAt as bs

/-- Whether pattern `p` occurs somewhere in text `t` (Python `in`). -/
def containsSub (p : List Char) : List Char → Bool
  | [] => prefixAt p []
  | t@(_ :: ts) => prefixAt p t || containsSub p ts

/-- Python `word in query_lower` (substring containment). -/
def strContains (s w : String) : Bool :=
  containsSub w.toList s.toList

/-- Python `any(word in query_lower for word in words)`. -/
def anyKeyword (ql : String) (words : List String) : Bool :=
  words.any fun w => strContains ql w

/-- Trigger keywords of the revenue topic. -/
def kwRevenue : List String := ["total", "revenue", "overall", "sum"]

/-- Trigger keywords of the average topic. -/
def kwAverage : List String := ["average", "mean", "avg"]

/-- Trigger keywords of the product topic. -/
def kwProduct : List String := ["product", "widget", "best", "top"]

/-- Trigger keywords of the region topic. -/
def kwRegion : List String := ["region", "location", "area", "where"]

/-- Trigger keywords of the trend topic. -/
def kwTrend : List String := ["trend", "month", "time", "period"]

/-- Fact lines of the revenue topic. -/
def revenueLines (stats : Stats) : List String :=
  ["Total Revenue: $" ++ fmtComma2 stats.total_revenue]

/-- Fact lines of the average topic. -/
def averageLines (stats : Stats) : List String :=
  ["Average Transaction: $" ++ fmtComma2 stats.average_transaction,
   "Average Customer Age: " ++ fmt1 stats.avg_customer_age ++ " years",
   "Average Satisfaction: " ++ fmt2 stats.avg_satisfaction ++ "/5.0"]

/-- Fact lines of the product topic. -/
def productLines (stats : Stats) : List String :=
  ["Best Selling Product: " ++ stats.best_selling_product,
   "Sales by Product: " ++ pyDictStr (stats.sales_by_product.map fun p => (p.1, ratPyStr p.2))]

/-- Fact lines of the region topic. -/
def regionLines (stats : Stats) : List String :=
  ["Sales by Region: " ++ pyDictStr (stats.sales_by_region.map fun p => (p.1, ratPyStr p.2))]

/-- `list(stats['monthly_trend'].items())[-6:]`: the last six entries of
the monthly trend (all of them when fewer than six exist), preserving
their order. -/
def recent_months (stats : Stats) : List (String × ℤ) :=
  stats.monthly_trend.drop (stats.monthly_trend.length - 6)

/-- Fact lines of the trend topic. -/
def trendLines (stats : Stats) : List String :=
  ["Recent 6 Months Trend: " ++
    pyDictStr ((recent_months stats).map fun p => (p.1, intPyStr p.2))]

/-- The no-match fallback line. -/
def fallbackLine (stats : Stats) : String :=
  "Overview: Total Revenue $" ++ fmtComma2 stats.total_revenue ++
    ", Top Product: " ++ stats.best_selling_product

/-- The `context_parts` list assembled by `custom_retriever`: one
conditional block per topic rule in source order, then the fallback when
nothing triggered. -/
def context_parts (query : String) (stats : Stats) : List String :=
  let ql := strToLower query
  let parts :=
    (if anyKeyword ql kwRevenue then revenueLines stats else []) ++
    (if anyKeyword ql kwAverage then averageLines stats else []) ++
    (if anyKeyword ql kwProduct then productLines stats else []) ++
    (if anyKeyword ql kwRegion then regionLines stats else []) ++
    (if anyKeyword ql kwTrend then trendLines stats else [])
  if parts.isEmpty then [fallbackLine stats] else parts

/-- The context retriever: `custom_retriever(query, stats)` — the
newline-joined context block. -/
def custom_retriever (query : String) (stats : Stats) : String :=
  joinSep "\n" (context_parts query stats)

/-- The five topic rules in source order: trigger keywords paired with
their fact-line producers. -/
def topicRules : List (List String × (Stats → List String)) :=
  [(kwRevenue, revenueLines), (kwAverage, averageLines),
   (kwProduct, productLines), (kwRegion, regionLines), (kwTrend, trendLines)]

/-- Number of topic rules triggered by a question. -/
def numTriggered (query : String) : Nat :=
  (topicRules.filter fun rule => anyKeyword (strToLower query) rule.1).length

/-- The fact lines of the triggered topics, concatenated in rule order. -/
def triggeredLines (query : String) (stats : Stats) : List String :=
  ((topicRules.filter fun rule => anyKeyword (strToLower query) rule.1).map
    fun rule => rule.2 stats).flatten

/-- A sample raw dataset: three products (A: 100, B: 250, C: 250) across
three months and two regions. -/
def sampleRows : List RawRecord :=
  [⟨"2024-01-15", "A", "North", 100, 30, 4⟩,
   ⟨"2024-02-10", "B", "South", 250, 40, 3⟩,
   ⟨"2024-03-05", "C", "North", 250, 50, 5⟩]

/-- The parsed form of `sampleRows`. -/
def sampleRecords : List Record :=
  [⟨⟨2024, 1, 15⟩, "A", "North", 100, 30, 4⟩,
   ⟨⟨2024, 2, 10⟩, "B", "South", 250, 40, 3⟩,
   ⟨⟨2024, 3, 5⟩, "C", "North", 250, 50, 5⟩]

/-- The statistics index built from the sample dataset. -/
def sampleStats : Stats :=
  mkStats sampleRecords

/-! Helper lemmas. -/

/-- Unwrap a row whose date is known to parse (used only to state parse
results; the default is never reached on such rows). -/
def recOf (r : RawRecord) : Record :=
  (toRecord r).getD
    ⟨⟨0, 0, 0⟩, r.product, r.region, r.sales, r.customer_age, r.customer_satisfaction⟩

theorem parseRecordsFrom_ok_map {rows : List RawRecord} {rs : List Record} :
    ∀ {i : Nat}, parseRecordsFrom i rows = Except.ok rs → rs = rows.map recOf := by
  induction rows generalizing rs with
  | nil => intro i h; simp [parseRecordsFrom] at h; simp [h]
  | cons r rest ih =>
    intro i h
    simp only [parseRecordsFrom] at h
    cases hr : toRecord r with
    | none => rw [hr] at h; exact absurd h (by simp)
    | some rec =>
      rw [hr] at h
      cases hrest : parseRecordsFrom (i + 1) rest with
      | error e => rw [hrest] at h; exact absurd h (by simp)
      | ok rs' =>
        rw [hrest] at h
        have hrs : rs = rec :: rs' := by
          simpa using h.symm
        subst hrs
        have := ih hrest
        simp [this, List.map, recOf, hr]

theorem parseRecordsFrom_ok_some {rows : List RawRecord} {rs : List Record} {i : Nat}
    (h : parseRecordsFrom i rows = Except.ok rs) :
    ∀ r ∈ rows, toRecord r = some (recOf r) := by
  induction rows generalizing rs i with
  | nil => intro r hr; simp at hr
  | cons r rest ih =>
    intro x hx
    simp only [parseRecordsFrom] at h
    cases hr : toRecord r with
    | none => rw [hr] at h; exact absurd h (by simp)
    | some rec =>
      rw [hr] at h
      cases hrest : parseRecordsFrom (i + 1) rest with
      | error e => rw [hrest] at h; exact absurd h (by simp)
      | ok rs' =>
        rcases List.mem_cons.mp hx with rfl | hx'
        · rw [hr, recOf, hr]; rfl
        · exact ih hrest x hx'

theorem parseRecordsFrom_first_bad {rows : List RawRecord} :
    ∀ {i : Nat}, (∃ r ∈ rows, toRecord r = none) →
    parseRecordsFrom i rows =
      Except.error (BuildError.malformedRecordError
        (i + rows.findIdx fun r => (toRecord r).isNone)) := by
  induction rows with
  | nil => intro i h; simp at h
  | cons r rest ih =>
    intro i h
    cases hr : toRecord r with
    | none =>
      simp only [parseRecordsFrom, hr]
      rw [List.findIdx_cons]
      simp [hr]
    | some rec =>
      have hbad : ∃ x ∈ rest, toRecord x = none := by
        rcases h with ⟨x, hx, hxn⟩
        rcases List.mem_cons.mp hx with rfl | hx'
        · rw [hr] at hxn; exact absurd hxn (by simp)
        · exact ⟨x, hx', hxn⟩
      simp only [parseRecordsFrom, hr]
      rw [ih hbad, List.findIdx_cons]
      simp only [hr, Option.isNone_some, cond_false]
      have : i + 1 + List.findIdx (fun r => (toRecord r).isNone) rest =
          i + (List.findIdx (fun r => (toRecord r).isNone) rest + 1) := by omega
      rw [this]

theorem parseRecordsFrom_ok_of_all {rows : List RawRecord}
    (h : ∀ r ∈ rows, toRecord r = some (recOf r)) :
    ∀ i : Nat, parseRecordsFrom i rows = Except.ok (rows.map recOf) := by
  induction rows with
  | nil => intro i; simp [parseRecordsFrom]
  | cons r rest ih =>
    intro i
    have hr := h r (by simp)
    have hrest := ih fun x hx => h x (by simp [hx])
    simp only [parseRecordsFrom, hr, hrest (i + 1), List.map]

theorem load_ok_elim {rows : List RawRecord} {s : Stats}
    (h : load_and_process_data rows = Except.ok s) :
    ∃ rs, parseRecords rows = Except.ok rs ∧ rs ≠ [] ∧ s = mkStats rs := by
  unfold load_and_process_data at h
  cases hp : parseRecords rows with
  | error e => rw [hp] at h; exact absurd h (by simp)
  | ok rs =>
    rw [hp] at h
    cases rs with
    | nil => exact absurd h (by simp)
    | cons r t =>
      refine ⟨r :: t, rfl, by simp, ?_⟩
      simpa using h.symm

theorem sum_map_add {α : Type} (f g : α → ℚ) :
    ∀ l : List α, (l.map fun x => f x + g x).sum = (l.map f).sum + (l.map g).sum := by
  intro l
  induction l with
  | nil => simp
  | cons x xs ih => simp [ih]; ring

theorem sum_ite_zero_of_not_mem {α : Type} [DecidableEq α] (a : α) (x : ℚ) :
    ∀ keys : List α, a ∉ keys → (keys.map fun k => if a = k then x else 0).sum = 0 := by
  intro keys
  induction keys with
  | nil => simp
  | cons k ks ih =>
    intro h
    have hk : a ≠ k := fun he => h (he ▸ List.mem_cons_self k ks)
    have hks : a ∉ ks := fun hm => h (List.mem_cons_of_mem k hm)
    simp [hk, ih hks]

theorem sum_ite_of_nodup {α : Type} [DecidableEq α] (a : α) (x : ℚ) :
    ∀ keys : List α, keys.Nodup → a ∈ keys →
      (keys.map fun k => if a = k then x else 0).sum = x := by
  intro keys
  induction keys with
  | nil => intro _ h; simp at h
  | cons k ks ih =>
    intro hnd hmem
    rcases List.mem_cons.mp hmem with rfl | hm
    · have : a ∉ ks := (List.nodup_cons.mp hnd).1
      simp [sum_ite_zero_of_not_mem a x ks this]
    · have hk : a ≠ k := by
        rintro rfl
        exact (List.nodup_cons.mp hnd).1 hm
      simp only [List.map, List.sum_cons, if_neg hk]
      rw [ih (List.nodup_cons.mp hnd).2 hm]
      ring

theorem sum_filter_partition {α : Type} [DecidableEq α] (g : Record → ℚ) (f : Record → α) :
    ∀ (rs : List Record) (keys : List α), keys.Nodup → (∀ r ∈ rs, f r ∈ keys) →
      (keys.map fun k => ((rs.filter fun r => f r = k).map g).sum).sum = (rs.map g).sum := by
  intro rs
  induction rs with
  | nil =>
    intro keys _ _
    simp
  | cons r rest ih =>
    intro keys hnd hcov
    have hstep : (keys.map fun k => (((r :: rest).filter fun r => f r = k).map g).sum) =
        keys.map fun k =>
          (if f r = k then g r else 0) + ((rest.filter fun r => f r = k).map g).sum := by
      apply List.map_congr_left
      intro k _
      by_cases hfk : f r = k
      · simp [List.filter_cons, hfk]
      · simp [List.filter_cons, hfk]
    rw [hstep, sum_map_add, sum_ite_of_nodup (f r) (g r) keys hnd (hcov r (by simp)),
      ih keys hnd fun x hx => hcov x (by simp [hx])]
    simp

theorem sortedDedup_nodup {α : Type} [LinearOrder α] [DecidableEq α] (l : List α) :
    (List.insertionSort (· ≤ ·) l.dedup).Nodup :=
  ((List.perm_insertionSort (· ≤ ·) l.dedup).nodup_iff).mpr l.nodup_dedup

theorem sortedDedup_sorted_le {α : Type} [LinearOrder α] [DecidableEq α] (l : List α) :
    (List.insertionSort (· ≤ ·) l.dedup).Sorted (· ≤ ·) :=
  List.sorted_insertionSort (· ≤ ·) l.dedup

theorem sortedDedup_sorted_lt {α : Type} [LinearOrder α] [DecidableEq α] (l : List α) :
    (List.insertionSort (· ≤ ·) l.dedup).Sorted (· < ·) :=
  (sortedDedup_sorted_le l).lt_of_le (sortedDedup_nodup l)

theorem mem_sortedDedup {α : Type} [LinearOrder α] [DecidableEq α] {l : List α} {x : α} :
    x ∈ List.insertionSort (· ≤ ·) l.dedup ↔ x ∈ l :=
  (List.mem_insertionSort (· ≤ ·)).trans List.mem_dedup

theorem sortedDedup_eq_of_perm {α : Type} [LinearOrder α] [DecidableEq α] {l₁ l₂ : List α}
    (h : List.Perm l₁ l₂) :
    List.insertionSort (· ≤ ·) l₁.dedup = List.insertionSort (· ≤ ·) l₂.dedup := by
  apply List.eq_of_perm_of_sorted _ (sortedDedup_sorted_le l₁) (sortedDedup_sorted_le l₂)
  exact ((List.perm_insertionSort (· ≤ ·) l₁.dedup).trans h.dedup).trans
    (List.perm_insertionSort (· ≤ ·) l₂.dedup).symm

theorem sortedDedup_ne_nil {α : Type} [LinearOrder α] [DecidableEq α] {l : List α} (h : l ≠ []) :
    List.insertionSort (· ≤ ·) l.dedup ≠ [] := by
  intro hnil
  have : l.dedup = [] := ((List.perm_insertionSort (· ≤ ·) l.dedup).symm.trans
    (hnil ▸ List.Perm.refl [])).eq_nil
  exact h ((List.dedup_eq_nil l).mp this)

theorem idxmaxAux_spec :
    ∀ (l : List (String × ℚ)) (b : String × ℚ),
      (b :: l).Sorted (fun x y => x.1 < y.1) →
      idxmaxAux b l ∈ b :: l ∧
        ∀ y ∈ b :: l, y.2 ≤ (idxmaxAux b l).2 ∧
          (y.2 = (idxmaxAux b l).2 → (idxmaxAux b l).1 ≤ y.1) := by
  intro l
  induction l with
  | nil =>
    intro b _
    refine ⟨by simp [idxmaxAux], ?_⟩
    intro y hy
    have hyb : y = b := by simpa using hy
    rw [hyb]
    exact ⟨le_refl _, fun _ => le_refl _⟩
  | cons x xs ih =>
    intro b hsorted
    have hcons := List.sorted_cons.mp hsorted
    have hx := List.sorted_cons.mp hcons.2
    have hbx1 : b.1 < x.1 := hcons.1 x (by simp)
    by_cases hbx : b.2 < x.2
    · have hunfold : idxmaxAux b (x :: xs) = idxmaxAux x xs := by
        simp [idxmaxAux, hbx]
      have hres := ih x hcons.2
      rw [hunfold]
      refine ⟨List.mem_cons_of_mem b hres.1, ?_⟩
      intro y hy
      rcases List.mem_cons.mp hy with he | hy'
      · have hxr := hres.2 x (List.mem_cons_self x xs)
        have hlt : b.2 < (idxmaxAux x xs).2 := lt_of_lt_of_le hbx hxr.1
        refine ⟨?_, ?_⟩
        · rw [he]; exact le_of_lt hlt
        · intro hteq; rw [he] at hteq; exact absurd hteq (ne_of_lt hlt)
      · exact hres.2 y hy'
    · have hunfold : idxmaxAux b (x :: xs) = idxmaxAux b xs := by
        simp [idxmaxAux, hbx]
      have hs' : (b :: xs).Sorted (fun x y => x.1 < y.1) := by
        refine List.sorted_cons.mpr ⟨?_, hx.2⟩
        intro y hy
        exact hcons.1 y (List.mem_cons_of_mem x hy)
      have hres := ih b hs'
      rw [hunfold]
      constructor
      · rcases List.mem_cons.mp hres.1 with he | hm
        · rw [he]; exact List.mem_cons_self b (x :: xs)
        · exact List.mem_cons_of_mem b (List.mem_cons_of_mem x hm)
      · intro y hy
        have hbspec := hres.2 b (List.mem_cons_self b xs)
        rcases List.mem_cons.mp hy with he | hy'
        · rw [he]; exact hbspec
        rcases List.mem_cons.mp hy' with he | hy''
        · refine ⟨?_, ?_⟩
          · rw [he]; exact le_trans (le_of_not_lt hbx) hbspec.1
          · intro hteq
            rw [he] at hteq ⊢
            have hbeq : b.2 = (idxmaxAux b xs).2 :=
              le_antisymm hbspec.1 (hteq ▸ le_of_not_lt hbx)
            exact le_of_lt (lt_of_le_of_lt (hbspec.2 hbeq) hbx1)
        · exact hres.2 y (List.mem_cons_of_mem b hy'')

theorem productKeys_ne_nil {rs : List Record} (h : rs ≠ []) : productKeys rs ≠ [] := by
  unfold productKeys
  exact sortedDedup_ne_nil (l := rs.map Record.product) (by simpa using h)

theorem sales_by_product_sorted (rs : List Record) :
    (sales_by_product rs).Sorted (fun x y => x.1 < y.1) := by
  unfold sales_by_product productKeys
  exact List.Pairwise.map _ (fun a b hab => hab) (sortedDedup_sorted_lt _)

theorem productKeys_perm {rs rs₂ : List Record} (h : List.Perm rs rs₂) :
    productKeys rs = productKeys rs₂ := by
  unfold productKeys
  exact sortedDedup_eq_of_perm (h.map Record.product)

theorem sales_by_product_perm {rs rs₂ : List Record} (h : List.Perm rs rs₂) :
    sales_by_product rs = sales_by_product rs₂ := by
  unfold sales_by_product
  rw [productKeys_perm h]
  apply List.map_congr_left
  intro p _
  unfold productSumFor
  rw [((h.filter _).map Record.sales).sum_eq]

theorem best_selling_product_perm {rs rs₂ : List Record} (h : List.Perm rs rs₂) :
    best_selling_product rs = best_selling_product rs₂ := by
  unfold best_selling_product
  rw [sales_by_product_perm h]

theorem sales_by_product_ne_nil {rs : List Record} (h : rs ≠ []) :
    sales_by_product rs ≠ [] := by
  unfold sales_by_product
  simp [productKeys_ne_nil h]

/-- C1: for every non-empty record set, `bestSellingProduct` is a key of
`salesByProduct` whose summed sales amount is maximal; on exact ties it
is the lexicographically smallest such label; and it is stable under any
reordering of the input records. -/
theorem C1_best_selling_product_max_lex_stable
    (rows : List RawRecord) (s : Stats)
    (h : load_and_process_data rows = Except.ok s) :
    (∃ v, (s.best_selling_product, v) ∈ s.sales_by_product ∧
      (∀ kv ∈ s.sales_by_product, kv.2 ≤ v) ∧
      (∀ kv ∈ s.sales_by_product, kv.2 = v → s.best_selling_product ≤ kv.1)) ∧
    (∀ rows₂ s₂, List.Perm rows rows₂ → load_and_process_data rows₂ = Except.ok s₂ →
      s₂.best_selling_product = s.best_selling_product) := by
  obtain ⟨rs, hp, hne, hs⟩ := load_ok_elim h
  subst hs
  constructor
  · show ∃ v, (best_selling_product rs, v) ∈ sales_by_product rs ∧
      (∀ kv ∈ sales_by_product rs, kv.2 ≤ v) ∧
      (∀ kv ∈ sales_by_product rs, kv.2 = v → best_selling_product rs ≤ kv.1)
    cases hcase : sales_by_product rs with
    | nil => exact absurd hcase (sales_by_product_ne_nil hne)
    | cons x xs =>
      have hsorted : (x :: xs).Sorted (fun a b => a.1 < b.1) :=
        hcase ▸ sales_by_product_sorted rs
      have hspec := idxmaxAux_spec xs x hsorted
      have hbval : best_selling_product rs = (idxmaxAux x xs).1 := by
        unfold best_selling_product
        rw [hcase]
      refine ⟨(idxmaxAux x xs).2, ?_, ?_, ?_⟩
      · rw [hbval]
        simpa using hspec.1
      · intro kv hkv
        exact (hspec.2 kv hkv).1
      · intro kv hkv hkv2
        rw [hbval]
        exact (hspec.2 kv hkv).2 hkv2
  · intro rows₂ s₂ hperm h₂
    obtain ⟨rs₂, hp₂, hne₂, hs₂⟩ := load_ok_elim h₂
    subst hs₂
    show best_selling_product rs₂ = best_selling_product rs
    have h1 : rs = rows.map recOf := parseRecordsFrom_ok_map hp
    have h2 : rs₂ = rows₂.map recOf := parseRecordsFrom_ok_map hp₂
    rw [h1, h2]
    exact best_selling_product_perm ((hperm.map recOf).symm)

/-- Witness for C1 at the sample dataset (A: 100, B: 250, C: 250). -/
theorem C1_witness :
    (∃ v, (sampleStats.best_selling_product, v) ∈ sampleStats.sales_by_product ∧
      (∀ kv ∈ sampleStats.sales_by_product, kv.2 ≤ v) ∧
      (∀ kv ∈ sampleStats.sales_by_product, kv.2 = v → sampleStats.best_selling_product ≤ kv.1)) ∧
    (∀ rows₂ s₂, List.Perm sampleRows rows₂ → load_and_process_data rows₂ = Except.ok s₂ →
      s₂.best_selling_product = sampleStats.best_selling_product) :=
  C1_best_selling_product_max_lex_stable sampleRows sampleStats rfl

theorem recOf_product (r : RawRecord) : (recOf r).product = r.product := by
  unfold recOf toRecord
  cases parseDate r.date <;> simp

theorem recOf_region (r : RawRecord) : (recOf r).region = r.region := by
  unfold recOf toRecord
  cases parseDate r.date <;> simp

theorem productKeys_nodup (rs : List Record) : (productKeys rs).Nodup := by
  unfold productKeys
  exact sortedDedup_nodup _

theorem productKeys_cover {rs : List Record} : ∀ r ∈ rs, r.product ∈ productKeys rs := by
  intro r hr
  unfold productKeys
  exact mem_sortedDedup.mpr (List.mem_map_of_mem Record.product hr)

theorem mem_productKeys_elim {rs : List Record} {p : String} (h : p ∈ productKeys rs) :
    ∃ r ∈ rs, r.product = p := by
  unfold productKeys at h
  rcases List.mem_map.mp (mem_sortedDedup.mp h) with ⟨r, hr, he⟩
  exact ⟨r, hr, he⟩

theorem regionKeys_nodup (rs : List Record) : (regionKeys rs).Nodup := by
  unfold regionKeys
  exact sortedDedup_nodup _

theorem regionKeys_cover {rs : List Record} : ∀ r ∈ rs, r.region ∈ regionKeys rs := by
  intro r hr
  unfold regionKeys
  exact mem_sortedDedup.mpr (List.mem_map_of_mem Record.region hr)

theorem mem_regionKeys_elim {rs : List Record} {g : String} (h : g ∈ regionKeys rs) :
    ∃ r ∈ rs, r.region = g := by
  unfold regionKeys at h
  rcases List.mem_map.mp (mem_sortedDedup.mp h) with ⟨r, hr, he⟩
  exact ⟨r, hr, he⟩

theorem sales_by_product_sum (rs : List Record) :
    ((sales_by_product rs).map Prod.snd).sum = total_revenue rs := by
  unfold sales_by_product total_revenue
  rw [List.map_map]
  exact sum_filter_partition Record.sales Record.product rs (productKeys rs)
    (productKeys_nodup rs) productKeys_cover

theorem sales_by_region_sum (rs : List Record) :
    ((sales_by_region rs).map Prod.snd).sum = total_revenue rs := by
  unfold sales_by_region total_revenue
  rw [List.map_map]
  exact sum_filter_partition Record.sales Record.region rs (regionKeys rs)
    (regionKeys_nodup rs) regionKeys_cover

/-- C3: for every accepted record set, the values of `salesByProduct` sum
exactly to `totalRevenue` (hence in particular within relative tolerance
`1e-6`), and every key of `salesByProduct` and of `salesByRegion` comes
from at least one source record. -/
theorem C3_sales_by_product_sum_and_keys
    (rows : List RawRecord) (s : Stats)
    (h : load_and_process_data rows = Except.ok s) :
    ((s.sales_by_product.map Prod.snd).sum = s.total_revenue ∧
      |(s.sales_by_product.map Prod.snd).sum - s.total_revenue| ≤
        (1 / 1000000) * |s.total_revenue|) ∧
    (∀ kv ∈ s.sales_by_product, ∃ raw ∈ rows, raw.product = kv.1) ∧
    (∀ kv ∈ s.sales_by_region, ∃ raw ∈ rows, raw.region = kv.1) := by
  obtain ⟨rs, hp, hne, hs⟩ := load_ok_elim h
  subst hs
  have hmap : rs = rows.map recOf := parseRecordsFrom_ok_map hp
  have hsum : (((mkStats rs).sales_by_product).map Prod.snd).sum = (mkStats rs).total_revenue :=
    sales_by_product_sum rs
  refine ⟨⟨hsum, ?_⟩, ?_, ?_⟩
  · rw [hsum]
    simp
  · intro kv hkv
    have hkey : kv.1 ∈ productKeys rs := by
      rcases List.mem_map.mp hkv with ⟨p, hp', he⟩
      rw [← he]
      exact hp'
    rcases mem_productKeys_elim hkey with ⟨r, hr, he⟩
    rw [hmap] at hr
    rcases List.mem_map.mp hr with ⟨raw, hraw, hre⟩
    exact ⟨raw, hraw, by rw [← he, ← hre, recOf_product]⟩
  · intro kv hkv
    have hkey : kv.1 ∈ regionKeys rs := by
      rcases List.mem_map.mp hkv with ⟨g, hg, he⟩
      rw [← he]
      exact hg
    rcases mem_regionKeys_elim hkey with ⟨r, hr, he⟩
    rw [hmap] at hr
    rcases List.mem_map.mp hr with ⟨raw, hraw, hre⟩
    exact ⟨raw, hraw, by rw [← he, ← hre, recOf_region]⟩

/-- Witness for C3 at the sample dataset. -/
theorem C3_witness :
    ((sampleStats.sales_by_product.map Prod.snd).sum = sampleStats.total_revenue ∧
      |(sampleStats.sales_by_product.map Prod.snd).sum - sampleStats.total_revenue| ≤
        (1 / 1000000) * |sampleStats.total_revenue|) ∧
    (∀ kv ∈ sampleStats.sales_by_product, ∃ raw ∈ sampleRows, raw.product = kv.1) ∧
    (∀ kv ∈ sampleStats.sales_by_region, ∃ raw ∈ sampleRows, raw.region = kv.1) :=
  C3_sales_by_product_sum_and_keys sampleRows sampleStats rfl

theorem monthCodes_nodup (rs : List Record) : (monthCodes rs).Nodup := by
  unfold monthCodes
  exact sortedDedup_nodup _

theorem monthCodes_sorted_lt (rs : List Record) : (monthCodes rs).Sorted (· < ·) := by
  unfold monthCodes
  exact sortedDedup_sorted_lt _

theorem monthCodes_cover {rs : List Record} : ∀ r ∈ rs, ymCode r.date ∈ monthCodes rs := by
  intro r hr
  unfold monthCodes
  exact mem_sortedDedup.mpr (List.mem_map_of_mem _ hr)

theorem monthCodes_ne_nil {rs : List Record} (h : rs ≠ []) : monthCodes rs ≠ [] := by
  unfold monthCodes
  exact sortedDedup_ne_nil (by simpa using h)

theorem month_sums_total (rs : List Record) :
    ((monthCodes rs).map fun c => monthSumFor rs c).sum = total_revenue rs := by
  unfold monthSumFor total_revenue
  exact sum_filter_partition Record.sales (fun r => ymCode r.date) rs (monthCodes rs)
    (monthCodes_nodup rs) monthCodes_cover

theorem qtrunc_diff_lt_one (q : ℚ) : |(qtrunc q : ℚ) - q| < 1 := by
  unfold qtrunc
  by_cases h : 0 ≤ q
  · rw [if_pos h, abs_lt]
    have h1 := Int.floor_le q
    have h2 := Int.lt_floor_add_one q
    constructor <;> linarith
  · rw [if_neg h, abs_lt]
    have h1 := Int.le_ceil q
    have h2 := Int.ceil_lt_add_one q
    constructor <;> linarith

theorem abs_sum_le_length (l : List ℚ) (h : ∀ x ∈ l, |x| < 1) :
    |l.sum| ≤ (l.length : ℚ) := by
  induction l with
  | nil => simp
  | cons x xs ih =>
    have hx := h x (by simp)
    have hxs := ih fun y hy => h y (by simp [hy])
    calc |(x :: xs).sum| = |x + xs.sum| := by rw [List.sum_cons]
      _ ≤ |x| + |xs.sum| := abs_add _ _
      _ ≤ (((x :: xs).length : ℚ)) := by
          simp only [List.length_cons]
          push_cast
          linarith

theorem abs_sum_lt_length {l : List ℚ} (h : ∀ x ∈ l, |x| < 1) (hne : l ≠ []) :
    |l.sum| < (l.length : ℚ) := by
  cases l with
  | nil => exact absurd rfl hne
  | cons x xs =>
    have hx := h x (by simp)
    have hxs := abs_sum_le_length xs fun y hy => h y (by simp [hy])
    calc |(x :: xs).sum| = |x + xs.sum| := by rw [List.sum_cons]
      _ ≤ |x| + |xs.sum| := abs_add _ _
      _ < (((x :: xs).length : ℚ)) := by
          simp only [List.length_cons]
          push_cast
          linarith

theorem sum_map_sub {α : Type} (f g : α → ℚ) (l : List α) :
    (l.map f).sum - (l.map g).sum = (l.map fun x => f x - g x).sum := by
  induction l with
  | nil => simp
  | cons x xs ih => simp only [List.map, List.sum_cons, ← ih]; ring

theorem monthly_trend_snd (rs : List Record) :
    (monthly_trend rs).map Prod.snd = (monthCodes rs).map fun c => qtrunc (monthSumFor rs c) := by
  unfold monthly_trend
  rw [List.map_map]
  rfl

/-- C2 is false as stated; this is the amended bound: the monthly trend
values are truncated to integers (`int(v)`), so their sum differs from
`totalRevenue` by strictly less than the number of months present — it
need not lie within relative tolerance `1e-6`. -/
theorem C2_monthly_trend_sum_bound
    (rows : List RawRecord) (s : Stats)
    (h : load_and_process_data rows = Except.ok s) :
    |(((s.monthly_trend.map Prod.snd).sum : ℤ) : ℚ) - s.total_revenue| <
      (s.monthly_trend.length : ℚ) := by
  obtain ⟨rs, hp, hne, hs⟩ := load_ok_elim h
  subst hs
  show |(((((monthly_trend rs).map Prod.snd).sum : ℤ)) : ℚ) - total_revenue rs| <
    ((monthly_trend rs).length : ℚ)
  rw [monthly_trend_snd, Int.cast_list_sum, List.map_map, ← month_sums_total rs,
    sum_map_sub]
  have hlen : (monthly_trend rs).length = (monthCodes rs).length := by
    unfold monthly_trend
    rw [List.length_map]
  rw [hlen, ← List.length_map (monthCodes rs)
    (fun x => (Int.cast ∘ fun c => qtrunc (monthSumFor rs c)) x - monthSumFor rs x)]
  apply abs_sum_lt_length
  · intro x hx
    rcases List.mem_map.mp hx with ⟨c, _, he⟩
    rw [← he]
    exact qtrunc_diff_lt_one (monthSumFor rs c)
  · simp [monthCodes_ne_nil hne]

/-- Witness for the amended C2 at the sample dataset. -/
theorem C2_witness :
    |(((sampleStats.monthly_trend.map Prod.snd).sum : ℤ) : ℚ) - sampleStats.total_revenue| <
      (sampleStats.monthly_trend.length : ℚ) :=
  C2_monthly_trend_sum_bound sampleRows sampleStats rfl

/-- Counterexample to C2 as stated: a single sale of `0.5` gives
`totalRevenue = 1/2` but a truncated monthly trend value of `0`, so the
trend sum misses `totalRevenue` by `1/2`, far beyond relative `1e-6`. -/
theorem C2_counterexample :
    ¬ ∀ (rows : List RawRecord) (s : Stats),
        load_and_process_data rows = Except.ok s →
        |(((s.monthly_trend.map Prod.snd).sum : ℤ) : ℚ) - s.total_revenue| ≤
          (1 / 1000000) * |s.total_revenue| := by
  intro hall
  have hfloor : (⌊(1 : ℚ)/2⌋ : ℤ) = 0 := by
    rw [Int.floor_eq_iff]
    norm_num
  have h := hall [⟨"2024-01-15", "A", "North", 1/2, 30, 4⟩]
    (mkStats [⟨⟨2024, 1, 15⟩, "A", "North", 1/2, 30, 4⟩]) rfl
  simp +decide [mkStats, monthly_trend, monthCodes, monthSumFor, ymCode, qtrunc,
    total_revenue, periodStr, padNat, natStr, List.insertionSort, List.orderedInsert,
    List.dedup, List.pwFilter, List.filter, hfloor] at h
  norm_num at h

/-- C4: building from the empty record sequence fails with
`EmptyDatasetError`, and a failed build never also yields a `Stats`
value — errors are surfaced, not silently defaulted. -/
theorem C4_empty_dataset_error :
    load_and_process_data [] = Except.error BuildError.emptyDatasetError ∧
    ∀ (rows : List RawRecord) (e : BuildError) (s : Stats),
      load_and_process_data rows = Except.error e →
      load_and_process_data rows ≠ Except.ok s := by
  refine ⟨rfl, ?_⟩
  intro rows e s he hok
  rw [he] at hok
  exact absurd hok (by simp)

/-- Witness for C4: the empty build errors and in particular is not the
`Stats` of the empty record list. -/
theorem C4_witness :
    load_and_process_data [] ≠ Except.ok (mkStats []) :=
  C4_empty_dataset_error.2 [] BuildError.emptyDatasetError (mkStats []) rfl

theorem toRecord_none_iff (r : RawRecord) : toRecord r = none ↔ parseDate r.date = none := by
  unfold toRecord
  cases parseDate r.date <;> simp

theorem toRecord_some_of {r : RawRecord} (h : parseDate r.date ≠ none) :
    toRecord r = some (recOf r) := by
  unfold recOf toRecord
  cases hd : parseDate r.date with
  | none => exact absurd hd h
  | some d => simp

/-- Counterexample to C5 as stated: a row with a parseable date but
negative sales, non-positive age and out-of-range satisfaction is
accepted by the build; only unparseable dates are rejected. -/
theorem C5_counterexample :
    ¬ ∀ rows : List RawRecord,
        (∃ r ∈ rows, parseDate r.date = none ∨ r.sales < 0 ∨
          ¬ 0 < r.customer_age ∨
          ¬ (1 ≤ r.customer_satisfaction ∧ r.customer_satisfaction ≤ 5)) →
        ∃ i, load_and_process_data rows =
          Except.error (BuildError.malformedRecordError i) := by
  intro hall
  have h := hall [⟨"2024-01-01", "A", "N", -5, -3, 99⟩]
    ⟨⟨"2024-01-01", "A", "N", -5, -3, 99⟩, by simp, Or.inr (Or.inl (by norm_num))⟩
  rcases h with ⟨i, hi⟩
  have hok : load_and_process_data [⟨"2024-01-01", "A", "N", -5, -3, 99⟩] =
      Except.ok (mkStats [⟨⟨2024, 1, 1⟩, "A", "N", -5, -3, 99⟩]) := rfl
  rw [hok] at hi
  exact absurd hi (by simp)

/-- C5 (amended): the build fails with `MalformedRecordError` exactly on
unparseable dates, aborting at the first such row; rows with negative
sales or out-of-bounds age/satisfaction are accepted and aggregated. -/
theorem C5_malformed_date_abort_first (rows : List RawRecord) :
    ((∃ r ∈ rows, parseDate r.date = none) →
      load_and_process_data rows =
        Except.error (BuildError.malformedRecordError
          (rows.findIdx fun r => (toRecord r).isNone))) ∧
    ((∀ r ∈ rows, parseDate r.date ≠ none) → rows ≠ [] →
      ∃ s, load_and_process_data rows = Except.ok s) := by
  constructor
  · intro hbad
    have hbad' : ∃ r ∈ rows, toRecord r = none := by
      rcases hbad with ⟨r, hr, he⟩
      exact ⟨r, hr, (toRecord_none_iff r).mpr he⟩
    have hfst := parseRecordsFrom_first_bad (i := 0) hbad'
    unfold load_and_process_data parseRecords
    rw [hfst, Nat.zero_add]
  · intro hgood hne
    have hsome : ∀ r ∈ rows, toRecord r = some (recOf r) :=
      fun r hr => toRecord_some_of (hgood r hr)
    have hok := parseRecordsFrom_ok_of_all hsome 0
    unfold load_and_process_data parseRecords
    rw [hok]
    cases hm : rows.map recOf with
    | nil => exact absurd (by simpa using hm) hne
    | cons a t => exact ⟨mkStats (a :: t), rfl⟩

/-- Witness for the amended C5: a build aborts at the first unparseable
date (index 1), and the all-parseable sample dataset builds. -/
theorem C5_witness :
    load_and_process_data
        [⟨"2024-01-01", "A", "N", 10, 30, 4⟩, ⟨"nodate", "B", "S", 5, 30, 4⟩] =
      Except.error (BuildError.malformedRecordError 1) ∧
    ∃ s, load_and_process_data sampleRows = Except.ok s := by
  constructor
  · have h := (C5_malformed_date_abort_first
      [⟨"2024-01-01", "A", "N", 10, 30, 4⟩, ⟨"nodate", "B", "S", 5, 30, 4⟩]).1
      ⟨⟨"nodate", "B", "S", 5, 30, 4⟩, by simp, by decide⟩
    rw [h]
    have hidx : (List.findIdx (fun r => (toRecord r).isNone)
        [⟨"2024-01-01", "A", "N", 10, 30, 4⟩, (⟨"nodate", "B", "S", 5, 30, 4⟩ : RawRecord)]) = 1 := by
      decide
    rw [hidx]
  · exact (C5_malformed_date_abort_first sampleRows).2 (by decide) (by simp [sampleRows])

theorem qtrunc_spec (q : ℚ) :
    (0 ≤ q → (qtrunc q : ℚ) ≤ q ∧ q - 1 < (qtrunc q : ℚ)) ∧
    (q < 0 → q ≤ (qtrunc q : ℚ) ∧ (qtrunc q : ℚ) < q + 1) := by
  unfold qtrunc
  constructor
  · intro h
    rw [if_pos h]
    exact ⟨Int.floor_le q, Int.sub_one_lt_floor q⟩
  · intro h
    rw [if_neg (not_le.mpr h)]
    exact ⟨Int.le_ceil q, Int.ceil_lt_add_one q⟩

/-- C10: every monthly trend entry is keyed by the string form of a
year-month period present in the data and holds that month's summed
sales converted to an integer by truncation toward zero (the fractional
part is discarded: the value is within 1 of the true sum, on the zero
side of it). -/
theorem C10_monthly_trend_truncation
    (rows : List RawRecord) (rs : List Record) (s : Stats)
    (hp : parseRecords rows = Except.ok rs)
    (h : load_and_process_data rows = Except.ok s) :
    ∀ kv ∈ s.monthly_trend, ∃ c ∈ monthCodes rs,
      kv.1 = periodStr c ∧
      kv.2 = qtrunc (monthSumFor rs c) ∧
      (0 ≤ monthSumFor rs c →
        (kv.2 : ℚ) ≤ monthSumFor rs c ∧ monthSumFor rs c - 1 < (kv.2 : ℚ)) ∧
      (monthSumFor rs c < 0 →
        monthSumFor rs c ≤ (kv.2 : ℚ) ∧ (kv.2 : ℚ) < monthSumFor rs c + 1) := by
  obtain ⟨rs', hp', hne, hs⟩ := load_ok_elim h
  have hrs : rs' = rs := by
    rw [hp'] at hp
    exact Except.ok.inj hp
  subst hrs
  subst hs
  intro kv hkv
  have hkv' : kv ∈ monthly_trend rs' := hkv
  unfold monthly_trend at hkv'
  rcases List.mem_map.mp hkv' with ⟨c, hc, he⟩
  refine ⟨c, hc, ?_, ?_, ?_, ?_⟩
  · rw [← he]
  · rw [← he]
  · intro hpos
    rw [← he]
    exact (qtrunc_spec (monthSumFor rs' c)).1 hpos
  · intro hneg
    rw [← he]
    exact (qtrunc_spec (monthSumFor rs' c)).2 hneg

/-- Witness for C10: the January entry of the sample dataset's monthly
trend is the period string of a month code with the truncated monthly
sum. -/
theorem C10_witness :
    ∃ c ∈ monthCodes sampleRecords,
      ("2024-01" : String) = periodStr c ∧
      (100 : ℤ) = qtrunc (monthSumFor sampleRecords c) ∧
      (0 ≤ monthSumFor sampleRecords c →
        ((100 : ℤ) : ℚ) ≤ monthSumFor sampleRecords c ∧
          monthSumFor sampleRecords c - 1 < ((100 : ℤ) : ℚ)) ∧
      (monthSumFor sampleRecords c < 0 →
        monthSumFor sampleRecords c ≤ ((100 : ℤ) : ℚ) ∧
          ((100 : ℤ) : ℚ) < monthSumFor sampleRecords c + 1) := by
  have h := C10_monthly_trend_truncation sampleRows sampleRecords sampleStats rfl rfl
    ("2024-01", (100 : ℤ))
  apply h
  have hf : (⌊(100 : ℚ)⌋ : ℤ) = 100 := by
    rw [Int.floor_eq_iff]
    norm_num
  have he : sampleStats.monthly_trend =
      [("2024-01", 100), ("2024-02", 250), ("2024-03", 250)] := by
    simp +decide [sampleStats, sampleRecords, mkStats, monthly_trend, monthCodes,
      monthSumFor, ymCode, qtrunc, periodStr, padNat, natStr, List.insertionSort,
      List.orderedInsert, List.dedup, List.pwFilter, List.filter, hf]
  rw [he]
  simp

/-- C6: when more than one topic rule triggers, the retrieved context is
the concatenation of the triggered topics' fact lines in the fixed rule
order (revenue, average, product, region, trend), with no lines from
untriggered topics; in particular the products-and-regions question
yields exactly the product lines followed by the region lines. -/
theorem C6_rule_order (q : String) (s : Stats) (h : 2 ≤ numTriggered q) :
    custom_retriever q s = joinSep "\n" (triggeredLines q s) ∧
    custom_retriever "tell me about products and regions" s =
      joinSep "\n" (productLines s ++ regionLines s) := by
  constructor
  · unfold numTriggered topicRules at h
    unfold custom_retriever context_parts triggeredLines topicRules
    cases h1 : anyKeyword (strToLower q) kwRevenue <;>
      cases h2 : anyKeyword (strToLower q) kwAverage <;>
        cases h3 : anyKeyword (strToLower q) kwProduct <;>
          cases h4 : anyKeyword (strToLower q) kwRegion <;>
            cases h5 : anyKeyword (strToLower q) kwTrend <;>
              simp_all [revenueLines, averageLines, productLines, regionLines, trendLines]
  · have e1 : anyKeyword (strToLower "tell me about products and regions") kwRevenue
        = false := by decide
    have e2 : anyKeyword (strToLower "tell me about products and regions") kwAverage
        = false := by decide
    have e3 : anyKeyword (strToLower "tell me about products and regions") kwProduct
        = true := by decide
    have e4 : anyKeyword (strToLower "tell me about products and regions") kwRegion
        = true := by decide
    have e5 : anyKeyword (strToLower "tell me about products and regions") kwTrend
        = false := by decide
    simp [custom_retriever, context_parts, e1, e2, e3, e4, e5,
      productLines, regionLines]

/-- Witness for C6 at the products-and-regions question over the sample
dataset. -/
theorem C6_witness :
    custom_retriever "tell me about products and regions" sampleStats =
      joinSep "\n" (triggeredLines "tell me about products and regions" sampleStats) ∧
    custom_retriever "tell me about products and regions" sampleStats =
      joinSep "\n" (productLines sampleStats ++ regionLines sampleStats) :=
  C6_rule_order "tell me about products and regions" sampleStats (by decide)

theorem context_parts_no_fallback (q : String) (s : Stats)
    (h : ((if anyKeyword (strToLower q) kwRevenue then revenueLines s else []) ++
        (if anyKeyword (strToLower q) kwAverage then averageLines s else []) ++
        (if anyKeyword (strToLower q) kwProduct then productLines s else []) ++
        (if anyKeyword (strToLower q) kwRegion then regionLines s else []) ++
        (if anyKeyword (strToLower q) kwTrend then trendLines s else [])) ≠ []) :
    context_parts q s =
      (if anyKeyword (strToLower q) kwRevenue then revenueLines s else []) ++
      (if anyKeyword (strToLower q) kwAverage then averageLines s else []) ++
      (if anyKeyword (strToLower q) kwProduct then productLines s else []) ++
      (if anyKeyword (strToLower q) kwRegion then regionLines s else []) ++
      (if anyKeyword (strToLower q) kwTrend then trendLines s else []) := by
  show (if ((if anyKeyword (strToLower q) kwRevenue then revenueLines s else []) ++
      (if anyKeyword (strToLower q) kwAverage then averageLines s else []) ++
      (if anyKeyword (strToLower q) kwProduct then productLines s else []) ++
      (if anyKeyword (strToLower q) kwRegion then regionLines s else []) ++
      (if anyKeyword (strToLower q) kwTrend then trendLines s else [])).isEmpty
    then [fallbackLine s]
    else ((if anyKeyword (strToLower q) kwRevenue then revenueLines s else []) ++
      (if anyKeyword (strToLower q) kwAverage then averageLines s else []) ++
      (if anyKeyword (strToLower q) kwProduct then productLines s else []) ++
      (if anyKeyword (strToLower q) kwRegion then regionLines s else []) ++
      (if anyKeyword (strToLower q) kwTrend then trendLines s else []))) = _
  rw [if_neg]
  intro he
  exact h (List.isEmpty_iff.mp he)

/-- C7: for a trend-triggering question, the trend topic emits exactly
the most recent six monthly-trend entries (all of them when fewer than
six months exist), as a suffix of the chronologically ascending trend
series, so their existing order is preserved. -/
theorem C7_trend_recent_six
    (rows : List RawRecord) (s : Stats) (q : String)
    (hs : load_and_process_data rows = Except.ok s)
    (ht : anyKeyword (strToLower q) kwTrend = true) :
    recent_months s <:+ s.monthly_trend ∧
    (recent_months s).length = min 6 s.monthly_trend.length ∧
    (s.monthly_trend.length ≤ 6 → recent_months s = s.monthly_trend) ∧
    (∃ codes : List Nat, codes.Sorted (· < ·) ∧
      s.monthly_trend.map Prod.fst = codes.map periodStr) ∧
    ("Recent 6 Months Trend: " ++
        pyDictStr ((recent_months s).map fun p => (p.1, intPyStr p.2))) ∈
      context_parts q s := by
  obtain ⟨rs, hp, hne, hsv⟩ := load_ok_elim hs
  refine ⟨List.drop_suffix _ _, ?_, ?_, ?_, ?_⟩
  · unfold recent_months
    rw [List.length_drop]
    omega
  · intro hle
    unfold recent_months
    have : s.monthly_trend.length - 6 = 0 := by omega
    rw [this, List.drop_zero]
  · refine ⟨monthCodes rs, monthCodes_sorted_lt rs, ?_⟩
    rw [hsv]
    show (monthly_trend rs).map Prod.fst = (monthCodes rs).map periodStr
    unfold monthly_trend
    rw [List.map_map]
    rfl
  · have hmem : ("Recent 6 Months Trend: " ++
        pyDictStr ((recent_months s).map fun p => (p.1, intPyStr p.2))) ∈
        ((if anyKeyword (strToLower q) kwRevenue then revenueLines s else []) ++
         (if anyKeyword (strToLower q) kwAverage then averageLines s else []) ++
         (if anyKeyword (strToLower q) kwProduct then productLines s else []) ++
         (if anyKeyword (strToLower q) kwRegion then regionLines s else []) ++
         (if anyKeyword (strToLower q) kwTrend then trendLines s else [])) := by
      apply List.mem_append_right
      rw [ht]
      simp [trendLines]
    rw [context_parts_no_fallback q s (List.ne_nil_of_mem hmem)]
    exact hmem

/-- Witness for C7 at the sample dataset and the question "trend". -/
theorem C7_witness :
    recent_months sampleStats <:+ sampleStats.monthly_trend ∧
    (recent_months sampleStats).length = min 6 sampleStats.monthly_trend.length ∧
    (sampleStats.monthly_trend.length ≤ 6 →
      recent_months sampleStats = sampleStats.monthly_trend) ∧
    (∃ codes : List Nat, codes.Sorted (· < ·) ∧
      sampleStats.monthly_trend.map Prod.fst = codes.map periodStr) ∧
    ("Recent 6 Months Trend: " ++
        pyDictStr ((recent_months sampleStats).map fun p => (p.1, intPyStr p.2))) ∈
      context_parts "trend" sampleStats :=
  C7_trend_recent_six sampleRows sampleStats "trend" rfl (by decide)

theorem str_eq_empty_of_length {s : String} (h : s.length = 0) : s = "" :=
  String.ext (List.length_eq_zero.mp h)

theorem append_ne_empty_left (s t : String) (h : s.length ≠ 0) : s ++ t ≠ "" := by
  intro he
  have hlen := congrArg String.length he
  rw [String.length_append] at hlen
  have h0 : String.length "" = 0 := rfl
  rw [h0] at hlen
  omega

theorem joinSep_ne_empty (sep : String) :
    ∀ l : List String, (∀ x ∈ l, x ≠ "") → l ≠ [] → joinSep sep l ≠ ""
  | [], _, hl => absurd rfl hl
  | [x], h, _ => by
    show x ≠ ""
    exact h x (by simp)
  | x :: y :: xs, h, _ => by
    show x ++ sep ++ joinSep sep (y :: xs) ≠ ""
    apply append_ne_empty_left
    rw [String.length_append]
    have hx : x.length ≠ 0 := fun h0 => h x (by simp) (str_eq_empty_of_length h0)
    omega

theorem context_parts_fallback (q : String) (s : Stats)
    (h : ((if anyKeyword (strToLower q) kwRevenue then revenueLines s else []) ++
        (if anyKeyword (strToLower q) kwAverage then averageLines s else []) ++
        (if anyKeyword (strToLower q) kwProduct then productLines s else []) ++
        (if anyKeyword (strToLower q) kwRegion then regionLines s else []) ++
        (if anyKeyword (strToLower q) kwTrend then trendLines s else [])) = []) :
    context_parts q s = [fallbackLine s] := by
  show (if ((if anyKeyword (strToLower q) kwRevenue then revenueLines s else []) ++
      (if anyKeyword (strToLower q) kwAverage then averageLines s else []) ++
      (if anyKeyword (strToLower q) kwProduct then productLines s else []) ++
      (if anyKeyword (strToLower q) kwRegion then regionLines s else []) ++
      (if anyKeyword (strToLower q) kwTrend then trendLines s else [])).isEmpty
    then [fallbackLine s]
    else ((if anyKeyword (strToLower q) kwRevenue then revenueLines s else []) ++
      (if anyKeyword (strToLower q) kwAverage then averageLines s else []) ++
      (if anyKeyword (strToLower q) kwProduct then productLines s else []) ++
      (if anyKeyword (strToLower q) kwRegion then regionLines s else []) ++
      (if anyKeyword (strToLower q) kwTrend then trendLines s else []))) = [fallbackLine s]
  rw [h]
  rfl

theorem context_parts_subset (q : String) (s : Stats) :
    ∀ x ∈ context_parts q s,
      x ∈ revenueLines s ++ averageLines s ++ productLines s ++ regionLines s ++
        trendLines s ++ [fallbackLine s] := by
  intro x hx
  by_cases hb : ((if anyKeyword (strToLower q) kwRevenue then revenueLines s else []) ++
      (if anyKeyword (strToLower q) kwAverage then averageLines s else []) ++
      (if anyKeyword (strToLower q) kwProduct then productLines s else []) ++
      (if anyKeyword (strToLower q) kwRegion then regionLines s else []) ++
      (if anyKeyword (strToLower q) kwTrend then trendLines s else [])) = []
  · rw [context_parts_fallback q s hb] at hx
    simp only [List.mem_singleton] at hx
    simp [hx]
  · rw [context_parts_no_fallback q s hb] at hx
    simp only [List.mem_append] at hx ⊢
    rcases hx with ((((h | h) | h) | h) | h) <;> split at h <;> simp_all

theorem master_lines_ne_empty (q : String) (s : Stats) :
    ∀ x ∈ context_parts q s, x ≠ "" := by
  intro x hx
  have hx' := context_parts_subset q s x hx
  simp only [revenueLines, averageLines, productLines, regionLines, trendLines,
    fallbackLine, List.mem_append, List.mem_cons, List.mem_singleton,
    List.not_mem_nil, or_false] at hx'
  rcases hx' with ((((h | (h | h | h)) | (h | h)) | h) | h) | h
  · rw [h]
    exact append_ne_empty_left _ _ (by decide)
  · rw [h]
    exact append_ne_empty_left _ _ (by decide)
  · rw [h]
    apply append_ne_empty_left
    rw [String.length_append]
    have hlit : ("Average Customer Age: ").length = 22 := by decide
    omega
  · rw [h]
    apply append_ne_empty_left
    rw [String.length_append]
    have hlit : ("Average Satisfaction: ").length = 22 := by decide
    omega
  · rw [h]
    exact append_ne_empty_left _ _ (by decide)
  · rw [h]
    exact append_ne_empty_left _ _ (by decide)
  · rw [h]
    exact append_ne_empty_left _ _ (by decide)
  · rw [h]
    exact append_ne_empty_left _ _ (by decide)
  · rw [h]
    apply append_ne_empty_left
    rw [String.length_append, String.length_append]
    have hlit : ("Overview: Total Revenue $").length = 25 := by decide
    omega

theorem context_parts_ne_nil (q : String) (s : Stats) : context_parts q s ≠ [] := by
  by_cases hb : ((if anyKeyword (strToLower q) kwRevenue then revenueLines s else []) ++
      (if anyKeyword (strToLower q) kwAverage then averageLines s else []) ++
      (if anyKeyword (strToLower q) kwProduct then productLines s else []) ++
      (if anyKeyword (strToLower q) kwRegion then regionLines s else []) ++
      (if anyKeyword (strToLower q) kwTrend then trendLines s else [])) = []
  · rw [context_parts_fallback q s hb]
    simp
  · rw [context_parts_no_fallback q s hb]
    exact hb

/-- C8: the retriever is total and never returns an empty context: for
any question and index the output is a non-empty string, and when no
trigger keyword matches it is the single fallback line, which contains
both the formatted total revenue and the best-selling product. -/
theorem C8_total_never_empty (q : String) (s : Stats) :
    custom_retriever q s ≠ "" ∧
    ((∀ ws ∈ [kwRevenue, kwAverage, kwProduct, kwRegion, kwTrend],
        anyKeyword (strToLower q) ws = false) →
      custom_retriever q s = fallbackLine s ∧
      (∃ a b, custom_retriever q s = a ++ fmtComma2 s.total_revenue ++ b) ∧
      (∃ a b, custom_retriever q s = a ++ s.best_selling_product ++ b)) := by
  constructor
  · unfold custom_retriever
    exact joinSep_ne_empty "\n" _ (master_lines_ne_empty q s) (context_parts_ne_nil q s)
  · intro hnone
    have h1 := hnone kwRevenue (by simp)
    have h2 := hnone kwAverage (by simp)
    have h3 := hnone kwProduct (by simp)
    have h4 := hnone kwRegion (by simp)
    have h5 := hnone kwTrend (by simp)
    have hcp : context_parts q s = [fallbackLine s] :=
      context_parts_fallback q s (by rw [h1, h2, h3, h4, h5]; simp)
    have hout : custom_retriever q s = fallbackLine s := by
      unfold custom_retriever
      rw [hcp]
      rfl
    refine ⟨hout, ⟨"Overview: Total Revenue $",
      ", Top Product: " ++ s.best_selling_product, ?_⟩,
      ⟨"Overview: Total Revenue $" ++ fmtComma2 s.total_revenue ++ ", Top Product: ",
        "", ?_⟩⟩
    · rw [hout]
      unfold fallbackLine
      simp [String.append_assoc]
    · rw [hout]
      unfold fallbackLine
      simp [String.append_assoc]

/-- Witness for C8 at the no-keyword question "xyz nonsense" over the
sample dataset. -/
theorem C8_witness :
    custom_retriever "xyz nonsense" sampleStats ≠ "" ∧
    custom_retriever "xyz nonsense" sampleStats = fallbackLine sampleStats ∧
    (∃ a b, custom_retriever "xyz nonsense" sampleStats =
      a ++ fmtComma2 sampleStats.total_revenue ++ b) ∧
    (∃ a b, custom_retriever "xyz nonsense" sampleStats =
      a ++ sampleStats.best_selling_product ++ b) :=
  ⟨(C8_total_never_empty "xyz nonsense" sampleStats).1,
   (C8_total_never_empty "xyz nonsense" sampleStats).2 (by decide)⟩

/-- C9: the retriever is deterministic and pure — its output is a
function of the question text and the statistics index alone, so two
calls with identical inputs give byte-identical output (the embedding is
a pure function: the source reads but never writes its arguments and
consults no other state). -/
theorem C9_retriever_deterministic (q₁ q₂ : String) (s₁ s₂ : Stats)
    (hq : q₁ = q₂) (hs : s₁ = s₂) :
    custom_retriever q₁ s₁ = custom_retriever q₂ s₂ := by
  rw [hq, hs]

/-- Witness for C9: two identical calls on the sample dataset agree. -/
theorem C9_witness :
    custom_retriever "trend" sampleStats = custom_retriever "trend" sampleStats :=
  C9_retriever_deterministic "trend" "trend" sampleStats sampleStats rfl rfl
